import Mathlib

/-!
Verification of the exchange-rate resolution / currency-conversion subsystem
and the data-normalization pipeline of the Tahsilat payment-reporting system.

Shallow embedding of:
  * `api/utils/data_import.py`   — `_parse_date`, `parse_amount`,
    `FIELD_MAPPING`, `validate_and_normalize_data`
  * `api/utils/currency_conversion.py` — `get_exchange_rate_from_tcmb`,
    `get_previous_business_day`, `get_exchange_rate_with_fallback`,
    `convert_tl_to_usd`

Python floats are modelled as rationals (ℚ); Python `datetime.date` values
are modelled both structurally (`Date`, for the parsing code) and as their
proleptic-Gregorian ordinal (`Day := Int`, for the resolver's date stepping,
matching `date.toordinal`).  The remote TCMB endpoint is modelled as an
oracle `Day → Option ℚ` giving, for each date, the parsed USD ForexBuying
rate or `none` for any transport / XML-parse failure or missing USD entry.
-/

set_option autoImplicit false

namespace Tahsilat

/-! ### Calendar dates (proleptic Gregorian, as in Python `datetime.date`) -/

structure Date where
  year : Nat
  month : Nat
  day : Nat
deriving DecidableEq, Repr

def isLeap (y : Nat) : Bool :=
  (y % 4 == 0 && y % 100 != 0) || y % 400 == 0

def daysInMonth (y m : Nat) : Nat :=
  if m = 2 then (if isLeap y then 29 else 28)
  else if m = 4 ∨ m = 6 ∨ m = 9 ∨ m = 11 then 30
  else 31

/-- A date constructible by Python's `datetime` (years 1..9999, real calendar day). -/
def dateValid (d : Date) : Bool :=
  1 ≤ d.year && d.year ≤ 9999 && 1 ≤ d.month && d.month ≤ 12 &&
    1 ≤ d.day && d.day ≤ daysInMonth d.year d.month

def daysBeforeYear (y : Nat) : Nat :=
  365 * (y - 1) + (y - 1) / 4 + (y - 1) / 400 - (y - 1) / 100

def daysBeforeMonth (y m : Nat) : Nat :=
  (List.range (m - 1)).foldl (fun acc i => acc + daysInMonth y (i + 1)) 0

/-- `date.toordinal`: day count with 0001-01-01 ↦ 1. -/
def toOrdinal (d : Date) : Nat :=
  daysBeforeYear d.year + daysBeforeMonth d.year d.month + d.day

/-- `date.fromordinal`: inverse of `toOrdinal` (civil-from-days algorithm). -/
def fromOrdinal (n : Nat) : Date :=
  let u := n + 305
  let era := u / 146097
  let doe := u % 146097
  let yoe := (doe - doe / 1460 + doe / 36524 - doe / 146096) / 365
  let doy := doe - (365 * yoe + yoe / 4 - yoe / 100)
  let mp := (5 * doy + 2) / 153
  let d := doy - (153 * mp + 2) / 5 + 1
  let m := if mp < 10 then mp + 3 else mp - 9
  if m ≤ 2 then ⟨yoe + era * 400 + 1, m, d⟩ else ⟨yoe + era * 400, m, d⟩

/-! ### Python scalar values appearing in a raw row -/

/-- An untyped Python scalar as it appears in an imported row: `None`, a
string, a number (int/float, as ℚ), or a pre-parsed date-bearing object
(pandas timestamp — anything answering `hasattr(v, 'date')`). -/
inductive Value where
  | none : Value
  | str (s : String) : Value
  | num (q : ℚ) : Value
  | dateVal (d : Date) : Value
deriving DecidableEq, Repr

/-! ### Character-list string primitives

All string manipulation is carried out on `List Char` with structural
recursion (`String.toList` at entry), mirroring the Python string methods
used by the source. -/

/-- Python `str.strip()` (ASCII whitespace). -/
def charTrim (cs : List Char) : List Char :=
  ((cs.dropWhile Char.isWhitespace).reverse.dropWhile Char.isWhitespace).reverse

/-- Python `str.lower()` (ASCII). -/
def charLower (cs : List Char) : List Char :=
  cs.map Char.toLower

/-- Python `str.upper()` (ASCII). -/
def charUpper (cs : List Char) : List Char :=
  cs.map Char.toUpper

/-- Python `s.split(sep)` for a one-character separator. -/
def splitOnCharAux (sep : Char) : List Char → List Char → List (List Char)
  | [], acc => [acc.reverse]
  | c :: rest, acc =>
    if c = sep then acc.reverse :: splitOnCharAux sep rest []
    else splitOnCharAux sep rest (c :: acc)

def splitOnChar (sep : Char) (cs : List Char) : List (List Char) :=
  splitOnCharAux sep cs []

/-! ### Python numeric-literal parsing (`float(s)`, `int(s)`) -/

def digitsVal (cs : List Char) : Nat :=
  cs.foldl (fun a c => a * 10 + (c.toNat - 48)) 0

def parseSign : List Char → Bool × List Char
  | '-' :: r => (true, r)
  | '+' :: r => (false, r)
  | cs => (false, cs)

def parseDigits (cs : List Char) : List Char × List Char :=
  (cs.takeWhile Char.isDigit, cs.dropWhile Char.isDigit)

/-- The rational value `±m · 10^e` (built with `mkRat`, which the kernel
can evaluate). -/
def ratOfParts (neg : Bool) (m : Nat) (e : Int) : ℚ :=
  let n : Int := if neg then -(m : Int) else (m : Int)
  if 0 ≤ e then mkRat (n * 10 ^ e.toNat) 1 else mkRat n (10 ^ (-e).toNat)

def applyExp (neg : Bool) (m : Nat) (e0 : Int) (cs : List Char) : Option ℚ :=
  let (eneg, cs₁) := parseSign cs
  let (ds, rest) := parseDigits cs₁
  if ds.isEmpty || !rest.isEmpty then Option.none
  else
    let e : Int := if eneg then -(digitsVal ds : Int) else (digitsVal ds : Int)
    some (ratOfParts neg m (e0 + e))

def pyFloatAux (cs : List Char) : Option ℚ :=
  let (neg, cs₁) := parseSign cs
  let (ip, rest₁) := parseDigits cs₁
  let hasDot : Bool := match rest₁ with | '.' :: _ => true | _ => false
  let (fp, rest₂) := if hasDot then parseDigits (rest₁.drop 1) else ([], rest₁)
  if ip.isEmpty && fp.isEmpty then Option.none
  else
    let m := digitsVal (ip ++ fp)
    let e0 : Int := -(fp.length : Int)
    match rest₂ with
    | [] => some (ratOfParts neg m e0)
    | 'e' :: r => applyExp neg m e0 r
    | 'E' :: r => applyExp neg m e0 r
    | _ => Option.none

/-- Model of Python `float(s)` on strings: optional surrounding whitespace,
optional sign, digits with at most one point, optional exponent.
(The `inf`/`nan` literals and underscore digit separators are not modelled;
no imported value in the claims exercises them.) -/
def pyFloatL (cs : List Char) : Option ℚ :=
  pyFloatAux (charTrim cs)

def pyFloat (s : String) : Option ℚ :=
  pyFloatL s.toList

/-- Model of Python `int(s)`: optional whitespace, sign, nonempty digits. -/
def pyIntL (cs : List Char) : Option Int :=
  let (neg, cs₁) := parseSign (charTrim cs)
  let (ds, rest) := parseDigits cs₁
  if ds.isEmpty || !rest.isEmpty then Option.none
  else some (if neg then -(digitsVal ds : Int) else (digitsVal ds : Int))

/-- Python `int(float)`: truncation toward zero (`Int.tdiv` is T-division). -/
def ratTrunc (q : ℚ) : Int :=
  Int.tdiv q.num (q.den : Int)

/-! ### `parse_amount` (data_import.py, lines 96–108) -/

/-- `val.replace('.', '').replace(',', '.')`: every `'.'` removed, then
every `','` turned into `'.'`. -/
def amountSeparators (cs : List Char) : List Char :=
  (cs.filter (fun c => c ≠ '.')).map (fun c => if c = ',' then '.' else c)

/-- `parse_amount`: `None → 0.0`; a string has every `'.'` removed and every
`','` turned into `'.'`, then `float(...)` with any exception giving `0.0`;
any other value is `float(val)` (a number is itself; `float(datetime)`
raises, giving `0.0`). -/
def parse_amount (v : Value) : ℚ :=
  match v with
  | .none => 0
  | .str s => (pyFloatL (amountSeparators s.toList)).getD 0
  | .num q => q
  | .dateVal _ => 0

/-! ### `_parse_date` (data_import.py, lines 38–94) -/

/-- Step 1 of `_parse_date` for a string: `str(v).lower() in ['nan','none','']`. -/
def lowerEmptyToken (cs : List Char) : Bool :=
  charLower cs == "nan".toList || charLower cs == "none".toList || cs == []

/-- Python `s.replace('.', '', 1)`. -/
def removeFirstDot : List Char → List Char
  | [] => []
  | '.' :: rest => rest
  | c :: rest => c :: removeFirstDot rest

/-- The numeric-string test of the Excel branch:
`date_value.replace('.', '', 1).isdigit()` (ASCII digits). -/
def numericDateForm (cs : List Char) : Bool :=
  let r := removeFirstDot cs
  !r.isEmpty && r.all Char.isDigit

def excelEpochOrdinal : Nat := toOrdinal ⟨1899, 12, 30⟩

def maxOrdinal : Nat := toOrdinal ⟨9999, 12, 31⟩

/-- The Excel-serial branch: `datetime(1899,12,30) + Timedelta(days=int(v))`.
`datetime` arithmetic either yields a valid in-range date or raises
`OverflowError` (modelled as failure, caught by the surrounding `except`). -/
def excelSerial (q : ℚ) : Option Date :=
  let t : Int := ratTrunc q
  let o : Int := (excelEpochOrdinal : Int) + t
  if 1 ≤ o ∧ o ≤ (maxOrdinal : Int) then
    let d := fromOrdinal o.toNat
    if dateValid d then some d else Option.none
  else Option.none

/-- The direct `YYYY-MM-DD` branch: `'-' in s and len(s) == 10`, then
`year, month, day = map(int, s.split('-'))`, the range check, and
`datetime(y, m, d)` (which raises on a non-calendar date, caught). -/
def isoBranch (cs : List Char) : Option Date :=
  if cs.contains '-' && cs.length == 10 then
    match splitOnChar '-' cs with
    | [a, b, c] =>
      match pyIntL a, pyIntL b, pyIntL c with
      | some y, some m, some d =>
        if 1900 ≤ y ∧ y ≤ 2100 ∧ 1 ≤ m ∧ m ≤ 12 ∧ 1 ≤ d ∧ d ≤ 31 then
          let dt : Date := ⟨y.toNat, m.toNat, d.toNat⟩
          if dateValid dt then some dt else Option.none
        else Option.none
      | _, _, _ => Option.none
    | _ => Option.none
  else Option.none

/-- A 1–2 digit `strptime` numeric directive with value in `[lo, hi]`
(`%d`: 1..31, `%m`: 1..12; the pattern rejects `"00"` and 3-digit runs). -/
def parseNumField (cs : List Char) (lo hi : Nat) : Option Nat :=
  if !cs.isEmpty && cs.length ≤ 2 && cs.all Char.isDigit then
    let v := digitsVal cs
    if lo ≤ v ∧ v ≤ hi then some v else Option.none
  else Option.none

/-- `strptime` `%Y`: exactly four digits. -/
def parseYear4 (cs : List Char) : Option Nat :=
  if cs.length == 4 && cs.all Char.isDigit then some (digitsVal cs) else Option.none

/-- `strptime` `%y`: exactly two digits; 00–68 ↦ 2000+, 69–99 ↦ 1900+. -/
def parseYear2 (cs : List Char) : Option Nat :=
  if cs.length == 2 && cs.all Char.isDigit then
    let v := digitsVal cs
    some (if v ≤ 68 then 2000 + v else 1900 + v)
  else Option.none

/-- One `strptime` attempt in day/month/year order with separator `sep`
(`two` selects `%y` over `%Y`); `strptime` requires the whole string to be
consumed and validates the real calendar. -/
def tryFormatDMY (sep : Char) (two : Bool) (cs : List Char) : Option Date :=
  match splitOnChar sep cs with
  | [ds, ms, ys] =>
    match parseNumField ds 1 31, parseNumField ms 1 12,
        (if two then parseYear2 ys else parseYear4 ys) with
    | some d, some m, some y =>
      let dt : Date := ⟨y, m, d⟩
      if dateValid dt then some dt else Option.none
    | _, _, _ => Option.none
  | _ => Option.none

/-- One `strptime` attempt in year/month/day order with separator `sep`. -/
def tryFormatYMD (sep : Char) (cs : List Char) : Option Date :=
  match splitOnChar sep cs with
  | [ys, ms, ds] =>
    match parseYear4 ys, parseNumField ms 1 12, parseNumField ds 1 31 with
    | some y, some m, some d =>
      let dt : Date := ⟨y, m, d⟩
      if dateValid dt then some dt else Option.none
    | _, _, _ => Option.none
  | _ => Option.none

/-- The ordered format cascade of `_parse_date` (lines 77–91):
`%d/%m/%Y`, `%d.%m.%Y`, `%d-%m-%Y`, `%d/%m/%y`, `%d.%m.%y`, `%Y-%m-%d`,
`%Y/%m/%d` — first success wins. -/
def tryFormats (cs : List Char) : Option Date :=
  match tryFormatDMY '/' false cs with
  | some d => some d
  | Option.none =>
  match tryFormatDMY '.' false cs with
  | some d => some d
  | Option.none =>
  match tryFormatDMY '-' false cs with
  | some d => some d
  | Option.none =>
  match tryFormatDMY '/' true cs with
  | some d => some d
  | Option.none =>
  match tryFormatDMY '.' true cs with
  | some d => some d
  | Option.none =>
  match tryFormatYMD '-' cs with
  | some d => some d
  | Option.none => tryFormatYMD '/' cs

/-- The string pipeline after the numeric branch: strip, the empty check,
the direct ISO branch, then the format cascade. -/
def parseDateString (cs : List Char) : Option Date :=
  let t := charTrim cs
  if t == [] then Option.none
  else
    match isoBranch t with
    | some d => some d
    | Option.none => tryFormats t

/-- `_parse_date` (data_import.py lines 38–94).  For a number whose
Excel-serial conversion overflows, the code falls through to parsing
`str(value)` — the textual form of a float (`"45385.0"`, `"1e+30"`, …) never
matches the length-10 ISO branch or any separator format, so that path is
`none`. -/
def parse_date (v : Value) : Option Date :=
  match v with
  | .none => Option.none
  | .dateVal d => some d
  | .num q => excelSerial q
  | .str s =>
    let cs := s.toList
    if lowerEmptyToken cs then Option.none
    else if numericDateForm cs then
      match pyFloatL cs with
      | some q =>
        match excelSerial q with
        | some d => some d
        | Option.none => parseDateString cs
      | Option.none => parseDateString cs
    else parseDateString cs

/-! ### `FIELD_MAPPING` and `validate_and_normalize_data` (data_import.py) -/

/-- A raw imported row: a finite mapping from column name to scalar
(Python dict keys are unique; lookup is by exact, case-sensitive equality). -/
abbrev RawRow := List (String × Value)

def rowLookup (row : RawRow) (key : String) : Option Value :=
  (row.find? (fun p => p.1 == key)).map Prod.snd

/-- `FIELD_MAPPING['payment_date']` — ONLY `"Tarih"`. -/
def paymentDateAliases : List String := ["Tarih"]

/-- `FIELD_MAPPING['paid_amount']`. -/
def paidAmountAliases : List String := ["Ödenen Tutar(Σ:12,767,688.23)", "paid_amount"]

/-- `FIELD_MAPPING['paid_currency']`. -/
def paidCurrencyAliases : List String := ["Ödenen Döviz", "paid_currency"]

/-- First alias present in the row wins. -/
def lookupAliases (row : RawRow) : List String → Option Value
  | [] => Option.none
  | a :: rest =>
    match rowLookup row a with
    | some v => some v
    | Option.none => lookupAliases row rest

/-- The date extraction of lines 114–128: check `'Tarih' in record` directly,
then fall back to the `FIELD_MAPPING['payment_date']` alias list. -/
def rowDate (row : RawRow) : Option Value :=
  match rowLookup row "Tarih" with
  | some v => some v
  | Option.none => lookupAliases row paymentDateAliases

/-- The record emitted per surviving row (the code stores
`payment_date` as the ISO string of a parsed date; the `Date` itself is the
faithful content since `isoformat` is injective on valid dates). -/
structure NormalizedRecord where
  payment_date : Date
  paid_amount : ℚ
  paid_currency : String
deriving DecidableEq, Repr

/-- Line 147: `parse_amount(normalized_record.get('paid_amount', 0))` —
the dict default `0` is a Python int. -/
def rowAmount (row : RawRow) : ℚ :=
  match lookupAliases row paidAmountAliases with
  | some v => parse_amount v
  | Option.none => parse_amount (.num 0)

/-- Lines 150–151: `val = get('paid_currency', '')`;
`val.strip().upper() if isinstance(val, str) else 'USD'`.  Note the dict
default `''` IS a string, so an absent column yields `""`, not `"USD"`.
(`str.upper` is modelled by ASCII `toUpper`.) -/
def normCurrency (v : Option Value) : String :=
  match v with
  | Option.none => ""
  | some (.str s) => ⟨charUpper (charTrim s.toList)⟩
  | some _ => "USD"

def rowCurrency (row : RawRow) : String :=
  normCurrency (lookupAliases row paidCurrencyAliases)

/-- `str(value)` as interpolated into the invalid-date error message
(the float rendering is approximate; no claim depends on it). -/
def pyStrOfValue (v : Value) : String :=
  match v with
  | .none => "None"
  | .str s => s
  | .num q => toString q
  | .dateVal d => toString d.year ++ "-" ++ toString d.month ++ "-" ++ toString d.day

/-- The body of the per-row loop (lines 110–162) for the row numbered
`rowNum` (1-indexed): either an error string or the emitted record. -/
def processRow (rowNum : Nat) (row : RawRow) : Except String NormalizedRecord :=
  match rowDate row with
  | Option.none => .error ("Row " ++ toString rowNum ++ ": Missing required 'Tarih' field")
  | some raw =>
    match parse_date raw with
    | Option.none =>
      .error ("Row " ++ toString rowNum ++ ": Invalid Tarih format: " ++ pyStrOfValue raw)
    | some d => .ok ⟨d, rowAmount row, rowCurrency row⟩

def validateGo : Nat → List RawRow → List NormalizedRecord × List String
  | _, [] => ([], [])
  | rowNum, row :: rest =>
    let res := validateGo (rowNum + 1) rest
    match processRow rowNum row with
    | .ok n => (n :: res.1, res.2)
    | .error e => (res.1, e :: res.2)

/-- `validate_and_normalize_data` (lines 25–164): rows processed in order,
row numbers starting at 1; a failed row contributes to `errors` only. -/
def validate_and_normalize_data (data : List RawRow) :
    List NormalizedRecord × List String :=
  validateGo 1 data

/-- A row passes the per-row validation: it has a date value and that value
parses. -/
def rowGood (row : RawRow) : Bool :=
  match rowDate row with
  | some v => (parse_date v).isSome
  | Option.none => false

/-- The record a good row normalizes to. -/
def normRow (row : RawRow) : NormalizedRecord :=
  ⟨(parse_date ((rowDate row).getD Value.none)).getD ⟨1, 1, 1⟩,
    rowAmount row, rowCurrency row⟩

/-- Every date-bearing Python object in the row holds a real calendar date
(an invariant of `datetime`/pandas objects, made explicit on `Value`). -/
def rowDatesValid (row : RawRow) : Bool :=
  row.all fun p =>
    match p.2 with
    | .dateVal d => dateValid d
    | _ => true

/-! ### Exchange-rate resolution (currency_conversion.py) -/

/-- A Python `date` as its proleptic-Gregorian ordinal (`date.toordinal`);
`timedelta` arithmetic is ordinal arithmetic and `weekday()` is
`(ordinal - 1) % 7` (Monday = 0). -/
abbrev Day := Int

def weekday (o : Day) : Int := (o - 1) % 7

/-- The `while prev_day.weekday() >= 5` loop; from any date it terminates
within two steps, so fuel 7 is exact. -/
def prevBusinessLoop : Nat → Day → Day
  | 0, p => p
  | fuel + 1, p => if weekday p ≥ 5 then prevBusinessLoop fuel (p - 1) else p

/-- `get_previous_business_day` (lines 89–106). -/
def get_previous_business_day (o : Day) : Day :=
  prevBusinessLoop 7 (o - 1)

/-- The mutable context of the resolver: the process-wide
`exchange_rate_cache` (keyed by the ISO date string, injective in the date)
and the persisted `exchange_rates` table rows `(date, usd_to_tl)` in
insertion order (the table's `unique` constraint on date is a property we
prove, not assume). -/
structure ResolverState where
  cache : List (Day × ℚ)
  store : List (Day × ℚ)
deriving DecidableEq, Repr

def lookupRate (l : List (Day × ℚ)) (d : Day) : Option ℚ :=
  (l.find? (fun p => p.1 == d)).map Prod.snd

/-- Number of persisted records carrying a given date. -/
def recCount (l : List (Day × ℚ)) (d : Day) : Nat :=
  (l.filter (fun p => p.1 == d)).length

/-- `get_exchange_rate_from_tcmb` (lines 20–68): cache first, then the
remote oracle; a fresh success is cached; any failure is `none` with the
state unchanged. -/
def get_exchange_rate_from_tcmb (tcmb : Day → Option ℚ) (st : ResolverState)
    (d : Day) : Option ℚ × ResolverState :=
  match lookupRate st.cache d with
  | some r => (some r, st)
  | Option.none =>
    match tcmb d with
    | some r => (some r, { st with cache := (d, r) :: st.cache })
    | Option.none => (Option.none, st)

/-- The `while rate is None and attempts < 5` loop of
`get_exchange_rate_with_fallback` (lines 136–142), returning the rate found
(if any), the last attempted date, and the updated state. -/
def retryLoop (tcmb : Day → Option ℚ) : Nat → ResolverState → Day →
    Option ℚ × Day × ResolverState
  | 0, st, cur => (Option.none, cur, st)
  | n + 1, st, cur =>
    let c := get_previous_business_day cur
    match get_exchange_rate_from_tcmb tcmb st c with
    | (some r, st') => (some r, c, st')
    | (Option.none, st') => retryLoop tcmb n st' c

/-- `get_exchange_rate_with_fallback` (lines 109–160).  `hasDb` models
`db_session` being provided.  Note the source's fallback branch resets
`current_date = target_date` BEFORE the persistence guard
`target_date == current_date`, so the 30.0 default IS persisted. -/
def get_exchange_rate_with_fallback (tcmb : Day → Option ℚ) (hasDb : Bool)
    (st : ResolverState) (target : Day) : (ℚ × Day) × ResolverState :=
  match (if hasDb then lookupRate st.store target else Option.none) with
  | some r => ((r, target), st)
  | Option.none =>
    let fetched := get_exchange_rate_from_tcmb tcmb st target
    let stepped :=
      match fetched.1 with
      | some v => (some v, target, fetched.2)
      | Option.none => retryLoop tcmb 5 fetched.2 target
    match stepped.1 with
    | some rate =>
      let st3 := if hasDb && (target == stepped.2.1) then
          { stepped.2.2 with store := stepped.2.2.store ++ [(target, rate)] }
        else stepped.2.2
      ((rate, stepped.2.1), st3)
    | Option.none =>
      let st3 := if hasDb then
          { stepped.2.2 with store := stepped.2.2.store ++ [(target, (30 : ℚ))] }
        else stepped.2.2
      (((30 : ℚ), target), st3)

/-- `convert_tl_to_usd` (lines 163–180): `amount_usd = amount_tl / rate`. -/
def convert_tl_to_usd (tcmb : Day → Option ℚ) (hasDb : Bool)
    (st : ResolverState) (amount_tl : ℚ) (rate_date : Day) :
    (ℚ × ℚ) × ResolverState :=
  let r := get_exchange_rate_with_fallback tcmb hasDb st rate_date
  ((amount_tl / r.1.1, r.1.1), r.2)

/-! ## Claim theorems -/

/-- **C1** (code bug): with the remote authority unreachable for
2024-04-03 (ordinal 738979) and for every prior business day, and an
available empty store, `get_exchange_rate_with_fallback` returns the fixed
default rate 30.0 with `effective_date = target_date` — but, contrary to
the claim and to the source's own comment ("Only store actual day rates,
not fallbacks"), it DOES persist the record `(target, 30)`: the fallback
branch resets `current_date = target_date` before the persistence guard. -/
theorem C1_fallback_persists_default_record :
    get_exchange_rate_with_fallback (fun _ => Option.none) true ⟨[], []⟩ 738979
      = ((30, 738979), ⟨[], [(738979, 30)]⟩) := by
  decide

/-- **C2** counterexample: the claim's "contains neither ',' nor any
separator ambiguity (e.g. only a '.') → parsed directly" is false:
`parse_amount "1234.56"` is 123456, not 1234.56, because every `'.'` is
removed unconditionally. -/
theorem C2_counterexample :
    parse_amount (Value.str "1234.56") ≠ 1234.56 := by
  rw [show (1234.56 : ℚ) = Rat.ofScientific 123456 true 2 from rfl,
    Rat.ofScientific_true_def]
  decide

/-- **C2** (amended): `parse_amount` removes every `'.'` and turns every
`','` into `'.'` unconditionally (no case split on which separators are
present), then parses, with any failure yielding 0; hence
`parse("1.234,56") = 1234.56`, `parse("1234,56") = 1234.56`, but
`parse("1234.56") = 123456`. -/
theorem C2_separator_handling :
    parse_amount (Value.str "1.234,56") = 1234.56 ∧
    parse_amount (Value.str "1234,56") = 1234.56 ∧
    parse_amount (Value.str "1234.56") = 123456 ∧
    (∀ s : String,
      parse_amount (Value.str s) = (pyFloatL (amountSeparators s.toList)).getD 0) := by
  refine ⟨?_, ?_, by decide, fun s => rfl⟩ <;>
  · rw [show (1234.56 : ℚ) = Rat.ofScientific 123456 true 2 from rfl,
      Rat.ofScientific_true_def]
    decide

/-- **C4** counterexample: `parse_amount` is not non-negative — the string
`"-5"` parses to −5. -/
theorem C4_counterexample :
    parse_amount (Value.str "-5") < 0 := by
  decide

/-- **C4** (amended): `parse_amount` is a total function (by type); `None`,
the empty string and unparseable garbage yield 0, and a numeric input is
returned as-is — but the result may be negative. -/
theorem C4_totality_behavior :
    parse_amount Value.none = 0 ∧
    parse_amount (Value.str "") = 0 ∧
    parse_amount (Value.str "garbage") = 0 ∧
    (∀ q : ℚ, parse_amount (Value.num q) = q) ∧
    parse_amount (Value.str "-5") = -5 := by
  exact ⟨by decide, by decide, by decide, fun q => rfl, by decide⟩

/-- **C5**: the ISO string `"2024-04-03"`, the day-first strings
`"03/04/2024"` and `"03.04.2024"`, and the numeric spreadsheet serial 45385
all parse to the calendar date 2024-04-03; and 45385 is exactly the
day-offset of 2024-04-03 from the epoch 1899-12-30. -/
theorem C5_date_representations_agree :
    parse_date (Value.str "2024-04-03") = some ⟨2024, 4, 3⟩ ∧
    parse_date (Value.str "03/04/2024") = some ⟨2024, 4, 3⟩ ∧
    parse_date (Value.str "03.04.2024") = some ⟨2024, 4, 3⟩ ∧
    parse_date (Value.num 45385) = some ⟨2024, 4, 3⟩ ∧
    toOrdinal ⟨2024, 4, 3⟩ = toOrdinal ⟨1899, 12, 30⟩ + 45385 := by
  decide

/-! Validity of every date produced by `parse_date`: each parsing branch
either copies a date-bearing object or passes an explicit validity check. -/

theorem excelSerial_valid {q : ℚ} {d : Date} (h : excelSerial q = some d) :
    dateValid d = true := by
  simp only [excelSerial] at h
  repeat split at h
  all_goals simp_all

theorem isoBranch_valid {cs : List Char} {d : Date} (h : isoBranch cs = some d) :
    dateValid d = true := by
  simp only [isoBranch] at h
  repeat split at h
  all_goals simp_all

theorem tryFormatDMY_valid {sep : Char} {two : Bool} {cs : List Char} {d : Date}
    (h : tryFormatDMY sep two cs = some d) : dateValid d = true := by
  simp only [tryFormatDMY] at h
  repeat split at h
  all_goals simp_all

theorem tryFormatYMD_valid {sep : Char} {cs : List Char} {d : Date}
    (h : tryFormatYMD sep cs = some d) : dateValid d = true := by
  simp only [tryFormatYMD] at h
  repeat split at h
  all_goals simp_all

theorem tryFormats_valid {cs : List Char} {d : Date}
    (h : tryFormats cs = some d) : dateValid d = true := by
  simp only [tryFormats] at h
  split at h
  · cases h; exact tryFormatDMY_valid (by assumption)
  · split at h
    · cases h; exact tryFormatDMY_valid (by assumption)
    · split at h
      · cases h; exact tryFormatDMY_valid (by assumption)
      · split at h
        · cases h; exact tryFormatDMY_valid (by assumption)
        · split at h
          · cases h; exact tryFormatDMY_valid (by assumption)
          · split at h
            · cases h; exact tryFormatYMD_valid (by assumption)
            · exact tryFormatYMD_valid h

theorem parseDateString_valid {cs : List Char} {d : Date}
    (h : parseDateString cs = some d) : dateValid d = true := by
  simp only [parseDateString] at h
  split at h
  · exact absurd h (by simp)
  · split at h
    · rename_i d' heq
      cases h
      exact isoBranch_valid heq
    · exact tryFormats_valid h

theorem parse_date_valid {v : Value} {d : Date} (h : parse_date v = some d) :
    v = Value.dateVal d ∨ dateValid d = true := by
  cases v with
  | none => simp [parse_date] at h
  | dateVal d0 =>
    simp only [parse_date, Option.some.injEq] at h
    exact Or.inl (by rw [h])
  | num q => exact Or.inr (excelSerial_valid h)
  | str s =>
    refine Or.inr ?_
    simp only [parse_date] at h
    split at h
    · exact absurd h (by simp)
    · split at h
      · split at h
        · split at h
          · rename_i d' heq
            cases h
            exact excelSerial_valid heq
          · exact parseDateString_valid h
        · exact parseDateString_valid h
      · exact parseDateString_valid h

theorem rowLookup_mem {row : RawRow} {k : String} {v : Value}
    (h : rowLookup row k = some v) : ∃ p ∈ row, p.2 = v := by
  unfold rowLookup at h
  cases hf : row.find? (fun p => p.1 == k) with
  | none => rw [hf] at h; exact absurd h (by simp)
  | some p =>
    refine ⟨p, List.mem_of_find?_eq_some hf, ?_⟩
    rw [hf] at h
    simpa using h

theorem lookupAliases_mem {row : RawRow} {as : List String} {v : Value}
    (h : lookupAliases row as = some v) : ∃ p ∈ row, p.2 = v := by
  induction as with
  | nil => simp [lookupAliases] at h
  | cons a rest ih =>
    unfold lookupAliases at h
    split at h
    · rename_i v' heq
      cases h
      exact rowLookup_mem heq
    · exact ih h

theorem rowDate_mem {row : RawRow} {v : Value} (h : rowDate row = some v) :
    ∃ p ∈ row, p.2 = v := by
  unfold rowDate at h
  split at h
  · rename_i v' heq
    cases h
    exact rowLookup_mem heq
  · exact lookupAliases_mem h

theorem processRow_ok_valid {i : Nat} {row : RawRow} {rec : NormalizedRecord}
    (hdv : rowDatesValid row = true) (h : processRow i row = .ok rec) :
    dateValid rec.payment_date = true := by
  unfold processRow at h
  split at h
  · exact absurd h (by simp)
  · rename_i v hv
    split at h
    · exact absurd h (by simp)
    · rename_i d hd
      cases h
      rcases parse_date_valid hd with heq | hval
      · subst heq
        rcases rowDate_mem hv with ⟨p, hp, hpv⟩
        have hall := (List.all_eq_true.mp hdv) p hp
        rw [hpv] at hall
        simpa using hall
      · simpa using hval

theorem validateGo_dates_valid {data : List RawRow} {i : Nat}
    (hdv : data.all rowDatesValid = true) :
    ∀ rec ∈ (validateGo i data).1, dateValid rec.payment_date = true := by
  induction data generalizing i with
  | nil => simp [validateGo]
  | cons row rest ih =>
    simp only [List.all_cons, Bool.and_eq_true] at hdv
    intro rec hrec
    unfold validateGo at hrec
    split at hrec
    · rename_i n hn
      rcases List.mem_cons.mp hrec with heq | hmem
      · subst heq; exact processRow_ok_valid hdv.1 hn
      · exact ih hdv.2 rec hmem
    · exact ih hdv.2 rec hrec

/-- **C3** counterexample: the row `{Tarih: "2024-04-03", paid_amount: "-5"}`
is normalized to a record with `paid_amount = -5 < 0` and
`paid_currency = ""` (the absent currency column yields the empty string,
not the configured default code, and no 3-letter shape is enforced),
refuting the claimed invariant. -/
theorem C3_counterexample :
    validate_and_normalize_data
        [[("Tarih", Value.str "2024-04-03"), ("paid_amount", Value.str "-5")]]
      = ([⟨⟨2024, 4, 3⟩, -5, ""⟩], []) ∧
    ((-5 : ℚ) < 0) ∧ ("" : String) ≠ "USD" := by
  refine ⟨by decide, by decide, by decide⟩

/-- **C3** (amended): of the claimed invariant, the part that holds is the
date invariant — every emitted `NormalizedRecord` has a valid, non-null
calendar `payment_date` (given that date-bearing source objects hold real
dates, a `datetime` invariant).  `paid_amount` may be negative and
`paid_currency` is only the trimmed/uppercased source string (empty when
the column is absent, `"USD"` only when a non-string value is present). -/
theorem C3_payment_dates_valid (data : List RawRow)
    (hdv : data.all rowDatesValid = true) :
    ∀ rec ∈ (validate_and_normalize_data data).1,
      dateValid rec.payment_date = true :=
  validateGo_dates_valid hdv

/-- Witness for C3 (amended) on a concrete one-row batch. -/
theorem C3_payment_dates_valid_witness :
    dateValid (⟨2024, 4, 3⟩ : Date) = true :=
  C3_payment_dates_valid [[("Tarih", Value.str "2024-04-03")]] (by decide)
    ⟨⟨2024, 4, 3⟩, 0, ""⟩ (by decide)

/-- **C9**: a row with a parseable date but none of the amount-column
aliases is normalized (no error) with `paid_amount = 0`: the absent amount
defaults to the dict default `0` and `parse_amount 0 = 0`. -/
theorem C9_missing_amount_silently_zero (row : RawRow) (i : Nat) (v : Value)
    (d : Date) (hdate : rowDate row = some v) (hparse : parse_date v = some d)
    (hno1 : rowLookup row "Ödenen Tutar(Σ:12,767,688.23)" = Option.none)
    (hno2 : rowLookup row "paid_amount" = Option.none) :
    processRow i row = .ok ⟨d, 0, rowCurrency row⟩ := by
  simp [processRow, hdate, hparse, rowAmount, lookupAliases, paidAmountAliases,
    hno1, hno2, parse_amount]

/-- Witness for C9 at a concrete one-column row. -/
theorem C9_missing_amount_silently_zero_witness :
    processRow 1 [("Tarih", Value.str "2024-04-03")]
      = .ok ⟨⟨2024, 4, 3⟩, 0, rowCurrency [("Tarih", Value.str "2024-04-03")]⟩ :=
  C9_missing_amount_silently_zero [("Tarih", Value.str "2024-04-03")] 1
    (Value.str "2024-04-03") ⟨2024, 4, 3⟩ (by decide) (by decide) (by decide)
    (by decide)

/-! Batch behaviour of `validate_and_normalize_data` (for C8). -/

theorem processRow_good {i : Nat} {row : RawRow} (hg : rowGood row = true) :
    processRow i row = .ok (normRow row) := by
  cases hv : rowDate row with
  | none => simp [rowGood, hv] at hg
  | some v =>
    cases hd : parse_date v with
    | none => simp [rowGood, hv, hd] at hg
    | some d => simp [processRow, normRow, hv, hd]

theorem processRow_missing {i : Nat} {row : RawRow}
    (hm : rowDate row = Option.none) :
    processRow i row
      = .error ("Row " ++ toString i ++ ": Missing required 'Tarih' field") := by
  simp [processRow, hm]

theorem validateGo_all_good {rows : List RawRow} {i : Nat}
    (hg : ∀ r ∈ rows, rowGood r = true) :
    validateGo i rows = (rows.map normRow, []) := by
  induction rows generalizing i with
  | nil => rfl
  | cons r rest ih =>
    have h1 := hg r (List.mem_cons_self _ _)
    simp only [validateGo, processRow_good h1,
      ih (fun x hx => hg x (List.mem_cons_of_mem _ hx)), List.map_cons]

theorem validateGo_one_bad {pre post : List RawRow} {bad : RawRow} {i : Nat}
    (hpre : ∀ r ∈ pre, rowGood r = true) (hpost : ∀ r ∈ post, rowGood r = true)
    (hbad : rowDate bad = Option.none) :
    validateGo i (pre ++ bad :: post)
      = ((pre ++ post).map normRow,
         ["Row " ++ toString (i + pre.length) ++ ": Missing required 'Tarih' field"]) := by
  induction pre generalizing i with
  | nil =>
    simp only [List.nil_append, validateGo, processRow_missing hbad,
      validateGo_all_good hpost, List.length_nil, Nat.add_zero, List.map_nil]
  | cons r pre' ih =>
    have h1 := hpre r (List.mem_cons_self _ _)
    have harith : (i + 1) + pre'.length = i + (r :: pre').length := by
      simp [List.length_cons]; omega
    simp only [List.cons_append, validateGo, processRow_good h1, List.append_eq,
      ih (fun x hx => hpre x (List.mem_cons_of_mem _ hx)), harith, List.map_cons]

/-- **C8**: in a batch where exactly the row at 1-indexed position
`pre.length + 1` has no recognized date column and every other row is
valid, normalization yields the remaining rows, normalized in input order
with no placeholder (length N−1), and exactly the one error string
`"Row K: Missing required 'Tarih' field"`; the batch is never aborted. -/
theorem C8_one_bad_row_batch (pre post : List RawRow) (bad : RawRow)
    (hpre : ∀ r ∈ pre, rowGood r = true) (hpost : ∀ r ∈ post, rowGood r = true)
    (hbad : rowDate bad = Option.none) :
    validate_and_normalize_data (pre ++ bad :: post)
      = ((pre ++ post).map normRow,
         ["Row " ++ toString (pre.length + 1) ++ ": Missing required 'Tarih' field"]) ∧
    ((pre ++ post).map normRow).length = (pre ++ bad :: post).length - 1 := by
  constructor
  · rw [validate_and_normalize_data, validateGo_one_bad hpre hpost hbad,
      Nat.add_comm 1 pre.length]
  · simp [List.length_append, List.length_map]

/-- Witness for C8: a 3-row batch whose middle row lacks the date column. -/
theorem C8_one_bad_row_batch_witness :
    validate_and_normalize_data
        ([[("Tarih", Value.str "2024-04-03")]] ++
          [("x", Value.str "y")] :: [[("Tarih", Value.str "03/04/2024")]])
      = (([[("Tarih", Value.str "2024-04-03")]] ++
            [[("Tarih", Value.str "03/04/2024")]]).map normRow,
         ["Row " ++ toString (([[("Tarih", Value.str "2024-04-03")]] :
            List RawRow).length + 1) ++ ": Missing required 'Tarih' field"]) ∧
    (([[("Tarih", Value.str "2024-04-03")]] ++
        [[("Tarih", Value.str "03/04/2024")]]).map normRow).length
      = ([[("Tarih", Value.str "2024-04-03")]] ++
          [("x", Value.str "y")] :: [[("Tarih", Value.str "03/04/2024")]]).length - 1 :=
  C8_one_bad_row_batch [[("Tarih", Value.str "2024-04-03")]]
    [[("Tarih", Value.str "03/04/2024")]] [("x", Value.str "y")]
    (by decide) (by decide) (by decide)

/-- **C10**: a row's date value is found iff the row has the exact
case-sensitive key `"Tarih"` (the alias list is exactly `["Tarih"]`), and
rows keyed `"tarih"`, `"TARIH"`, `"Date"` or `"payment_date"` are skipped
with the missing-date error. -/
theorem C10_date_key_is_exactly_Tarih :
    (∀ row : RawRow, (rowDate row).isSome ↔ (rowLookup row "Tarih").isSome) ∧
    paymentDateAliases = ["Tarih"] ∧
    validate_and_normalize_data [[("tarih", Value.str "2024-04-03")]]
      = ([], ["Row 1: Missing required 'Tarih' field"]) ∧
    validate_and_normalize_data [[("TARIH", Value.str "2024-04-03")]]
      = ([], ["Row 1: Missing required 'Tarih' field"]) ∧
    validate_and_normalize_data [[("Date", Value.str "2024-04-03")]]
      = ([], ["Row 1: Missing required 'Tarih' field"]) ∧
    validate_and_normalize_data [[("payment_date", Value.str "2024-04-03")]]
      = ([], ["Row 1: Missing required 'Tarih' field"]) := by
  refine ⟨fun row => ?_, rfl, by decide, by decide, by decide, by decide⟩
  cases h : rowLookup row "Tarih" <;>
    simp [rowDate, lookupAliases, paymentDateAliases, h]

/-! Resolver state lemmas (for C6/C7). -/

theorem lookupRate_cons_ne {p : Day × ℚ} {d : Day} {l : List (Day × ℚ)}
    (hne : p.1 ≠ d) : lookupRate (p :: l) d = lookupRate l d := by
  simp [lookupRate, List.find?_cons, hne]

theorem lookupRate_cons_eq {p : Day × ℚ} {d : Day} {l : List (Day × ℚ)}
    (heq : p.1 = d) : lookupRate (p :: l) d = some p.2 := by
  simp [lookupRate, List.find?_cons, heq]

theorem lookupRate_append_right {l : List (Day × ℚ)} {d : Day} {r : ℚ}
    (h : lookupRate l d = Option.none) :
    lookupRate (l ++ [(d, r)]) d = some r := by
  induction l with
  | nil => simp [lookupRate, List.find?_cons]
  | cons p l ih =>
    by_cases hp : p.1 = d
    · rw [lookupRate_cons_eq hp] at h
      exact absurd h (by simp)
    · rw [lookupRate_cons_ne hp] at h
      rw [List.cons_append, lookupRate_cons_ne hp]
      exact ih h

theorem recCount_append_self {l : List (Day × ℚ)} {d : Day} {r : ℚ} :
    recCount (l ++ [(d, r)]) d = recCount l d + 1 := by
  simp [recCount, List.filter_append]

theorem fetch_none {tcmb : Day → Option ℚ} {st st' : ResolverState} {d : Day}
    (h : get_exchange_rate_from_tcmb tcmb st d = (Option.none, st')) :
    st' = st ∧ lookupRate st.cache d = Option.none ∧ tcmb d = Option.none := by
  unfold get_exchange_rate_from_tcmb at h
  split at h
  · exact absurd h (by simp)
  · rename_i hc
    split at h
    · exact absurd h (by simp)
    · rename_i ht
      cases h
      exact ⟨rfl, hc, ht⟩

theorem fetch_some {tcmb : Day → Option ℚ} {st st' : ResolverState} {d : Day}
    {r : ℚ} (h : get_exchange_rate_from_tcmb tcmb st d = (some r, st')) :
    (st' = st ∧ lookupRate st.cache d = some r) ∨
    (st' = ⟨(d, r) :: st.cache, st.store⟩ ∧
      lookupRate st.cache d = Option.none ∧ tcmb d = some r) := by
  unfold get_exchange_rate_from_tcmb at h
  split at h
  · rename_i hc
    cases h
    exact Or.inl ⟨rfl, hc⟩
  · rename_i hc
    split at h
    · rename_i ht
      cases h
      exact Or.inr ⟨rfl, hc, ht⟩
    · exact absurd h (by simp)

theorem fetch_store_unchanged {tcmb : Day → Option ℚ} {st : ResolverState}
    {d : Day} : (get_exchange_rate_from_tcmb tcmb st d).2.store = st.store := by
  unfold get_exchange_rate_from_tcmb
  split
  · rfl
  · split <;> rfl

theorem fetch_after_some {tcmb : Day → Option ℚ} {st st' : ResolverState}
    {d : Day} {r : ℚ} (h : get_exchange_rate_from_tcmb tcmb st d = (some r, st')) :
    get_exchange_rate_from_tcmb tcmb st' d = (some r, st') := by
  rcases fetch_some h with ⟨h1, h2⟩ | ⟨h1, h2, h3⟩
  · subst h1
    simp [get_exchange_rate_from_tcmb, h2]
  · subst h1
    have hl : lookupRate ((d, r) :: st.cache) d = some r :=
      lookupRate_cons_eq rfl
    simp [get_exchange_rate_from_tcmb, hl]

theorem prevBusinessLoop_le (fuel : Nat) (p : Day) :
    prevBusinessLoop fuel p ≤ p := by
  induction fuel generalizing p with
  | zero => exact le_refl p
  | succ n ih =>
    unfold prevBusinessLoop
    split
    · exact le_trans (ih (p - 1)) (sub_le_self p zero_le_one)
    · exact le_refl p

theorem prev_business_day_lt (o : Day) : get_previous_business_day o < o := by
  have h := prevBusinessLoop_le 7 (o - 1)
  simp only [get_previous_business_day]
  exact lt_of_le_of_lt h (sub_one_lt o)

theorem retryLoop_some {tcmb : Day → Option ℚ} {n : Nat} {st st' : ResolverState}
    {cur c : Day} {v : ℚ} (h : retryLoop tcmb n st cur = (some v, c, st')) :
    c < cur ∧
      ((st' = st ∧ lookupRate st.cache c = some v) ∨
       (st' = ⟨(c, v) :: st.cache, st.store⟩ ∧
         lookupRate st.cache c = Option.none ∧ tcmb c = some v)) := by
  induction n generalizing st cur with
  | zero => exact absurd h (by simp [retryLoop])
  | succ n ih =>
    simp only [retryLoop] at h
    split at h
    · rename_i hf
      cases h
      exact ⟨prev_business_day_lt cur, fetch_some hf⟩
    · rename_i hf
      obtain ⟨hst, hc, ht⟩ := fetch_none hf
      subst hst
      obtain ⟨hlt, hrest⟩ := ih h
      exact ⟨lt_trans hlt (prev_business_day_lt cur), hrest⟩

theorem retryLoop_none {tcmb : Day → Option ℚ} {n : Nat} {st st' : ResolverState}
    {cur c : Day} (h : retryLoop tcmb n st cur = (Option.none, c, st')) :
    st' = st := by
  induction n generalizing st cur with
  | zero =>
    simp only [retryLoop] at h
    cases h
    rfl
  | succ n ih =>
    simp only [retryLoop] at h
    split at h
    · exact absurd h (by simp)
    · rename_i hf
      obtain ⟨hst, _, _⟩ := fetch_none hf
      subst hst
      exact ih h

theorem retryLoop_replay {tcmb : Day → Option ℚ} {n : Nat}
    {st st' : ResolverState} {cur c : Day} {v : ℚ}
    (h : retryLoop tcmb n st cur = (some v, c, st')) :
    retryLoop tcmb n st' cur = (some v, c, st') := by
  induction n generalizing st cur with
  | zero => exact absurd h (by simp [retryLoop])
  | succ n ih =>
    simp only [retryLoop] at h ⊢
    split at h
    · rename_i r st₁ hf
      cases h
      rw [fetch_after_some hf]
    · rename_i st₁ hf
      obtain ⟨hst, hc, ht⟩ := fetch_none hf
      rw [hst] at h
      obtain ⟨hlt, hdisj⟩ := retryLoop_some h
      have hfetch' : get_exchange_rate_from_tcmb tcmb st'
          (get_previous_business_day cur) = (Option.none, st') := by
        rcases hdisj with ⟨h1, _⟩ | ⟨h1, _, _⟩
        · rw [h1]
          simp [get_exchange_rate_from_tcmb, hc, ht]
        · rw [h1]
          have hlk : lookupRate ((c, v) :: st.cache)
              (get_previous_business_day cur) = Option.none := by
            rw [lookupRate_cons_ne (show (c, v).1 ≠ get_previous_business_day cur
              from ne_of_lt hlt)]
            exact hc
          simp [get_exchange_rate_from_tcmb, hlk, ht]
      rw [hfetch']
      exact ih h

/-- **C6**: resolving the same date twice with an available store is
idempotent — the second call returns the identical `(rate, effective_date)`
and leaves the state untouched, and across both calls at most one new
record for that date is persisted (so at most one per date regardless of
call count, since the persisted record short-circuits later calls). -/
theorem C6_resolve_idempotent (tcmb : Day → Option ℚ) (st : ResolverState)
    (target : Day) :
    get_exchange_rate_with_fallback tcmb true
        (get_exchange_rate_with_fallback tcmb true st target).2 target
      = ((get_exchange_rate_with_fallback tcmb true st target).1,
         (get_exchange_rate_with_fallback tcmb true st target).2) ∧
    recCount (get_exchange_rate_with_fallback tcmb true st target).2.store target
      ≤ recCount st.store target + 1 := by
  cases hdb : lookupRate st.store target with
  | some r =>
    have hR : get_exchange_rate_with_fallback tcmb true st target
        = ((r, target), st) := by
      simp [get_exchange_rate_with_fallback, hdb]
    rw [hR]
    exact ⟨by simp [get_exchange_rate_with_fallback, hdb], Nat.le_succ _⟩
  | none =>
    rcases hf : get_exchange_rate_from_tcmb tcmb st target with ⟨r0, st1⟩
    cases r0 with
    | some v =>
      have hstore : st1.store = st.store := by
        have h := @fetch_store_unchanged tcmb st target
        rw [hf] at h
        exact h
      have hR : get_exchange_rate_with_fallback tcmb true st target
          = ((v, target), ⟨st1.cache, st1.store ++ [(target, v)]⟩) := by
        simp [get_exchange_rate_with_fallback, hdb, hf]
      rw [hR]
      have hlk : lookupRate (st1.store ++ [(target, v)]) target = some v := by
        rw [hstore]
        exact lookupRate_append_right hdb
      constructor
      · simp [get_exchange_rate_with_fallback, hlk]
      · have : recCount (st1.store ++ [(target, v)]) target
            = recCount st.store target + 1 := by
          rw [hstore]
          exact recCount_append_self
        exact le_of_eq this
    | none =>
      obtain ⟨hst1, hcache, htc⟩ := fetch_none hf
      rw [hst1] at hf
      rcases hr : retryLoop tcmb 5 st target with ⟨ro, cur, st2⟩
      cases ro with
      | some v =>
        obtain ⟨hlt, hdisj⟩ := retryLoop_some hr
        have hne : (target == cur) = false :=
          beq_eq_false_iff_ne.mpr (ne_of_gt hlt)
        have hst2store : st2.store = st.store := by
          rcases hdisj with ⟨h1, _⟩ | ⟨h1, _, _⟩ <;> subst h1 <;> rfl
        have hR : get_exchange_rate_with_fallback tcmb true st target
            = ((v, cur), st2) := by
          simp [get_exchange_rate_with_fallback, hdb, hf, hr, hne]
        rw [hR]
        have hdb2 : lookupRate st2.store target = Option.none := by
          rw [hst2store]; exact hdb
        have hc2 : lookupRate st2.cache target = Option.none := by
          rcases hdisj with ⟨h1, _⟩ | ⟨h1, _, _⟩
          · subst h1; exact hcache
          · subst h1
            rw [lookupRate_cons_ne (show (cur, v).1 ≠ target from ne_of_lt hlt)]
            exact hcache
        have hf2 : get_exchange_rate_from_tcmb tcmb st2 target
            = (Option.none, st2) := by
          simp [get_exchange_rate_from_tcmb, hc2, htc]
        have hr2 := retryLoop_replay hr
        constructor
        · simp [get_exchange_rate_with_fallback, hdb2, hf2, hr2, hne]
        · rw [hst2store]
          exact Nat.le_succ _
      | none =>
        have hst2 : st2 = st := retryLoop_none hr
        rw [hst2] at hr
        have hR : get_exchange_rate_with_fallback tcmb true st target
            = ((30, target), ⟨st.cache, st.store ++ [(target, 30)]⟩) := by
          simp [get_exchange_rate_with_fallback, hdb, hf, hr]
        rw [hR]
        have hlk : lookupRate (st.store ++ [(target, (30 : ℚ))]) target
            = some 30 := lookupRate_append_right hdb
        constructor
        · simp [get_exchange_rate_with_fallback, hlk]
        · exact le_of_eq recCount_append_self

/-- **C7**: `convert_tl_to_usd` computes `converted = amount / rate` with
`rate` the resolved rate, so whenever the resolved rate is positive,
`converted * rate` recovers the original amount exactly (in ℚ). -/
theorem C7_conversion_round_trip (tcmb : Day → Option ℚ) (hasDb : Bool)
    (st : ResolverState) (amount : ℚ) (d : Day) :
    (convert_tl_to_usd tcmb hasDb st amount d).1.1
      = amount / (get_exchange_rate_with_fallback tcmb hasDb st d).1.1 ∧
    (convert_tl_to_usd tcmb hasDb st amount d).1.2
      = (get_exchange_rate_with_fallback tcmb hasDb st d).1.1 ∧
    (0 < (convert_tl_to_usd tcmb hasDb st amount d).1.2 →
      (convert_tl_to_usd tcmb hasDb st amount d).1.1
        * (convert_tl_to_usd tcmb hasDb st amount d).1.2 = amount) := by
  refine ⟨rfl, rfl, fun hpos => ?_⟩
  exact div_mul_cancel₀ amount hpos.ne'

/-- Witness for C7: with every remote fetch failing, the resolved rate is
the default 30 > 0 and the conversion of 100 TL round-trips. -/
theorem C7_conversion_round_trip_witness :
    0 < (convert_tl_to_usd (fun _ => Option.none) true ⟨[], []⟩ 100 738979).1.2 ∧
    (convert_tl_to_usd (fun _ => Option.none) true ⟨[], []⟩ 100 738979).1.1
      * (convert_tl_to_usd (fun _ => Option.none) true ⟨[], []⟩ 100 738979).1.2
      = 100 :=
  ⟨by decide,
    (C7_conversion_round_trip (fun _ => Option.none) true ⟨[], []⟩ 100 738979).2.2
      (by decide)⟩

end Tahsilat
